import Mathlib

/-
Verification of the dispatching configuration module of assemblyline-core
(src/dispatching/configuration.py), shallowly embedded in Lean 4.

Conventions used throughout:
* Python dicts are modelled as association lists built with dict insertion
  semantics (first key insertion fixes the position, a later write to the
  same key overwrites the value in place).
* Python exceptions surface as Option results (none = the call raised).
* Functions supplied by the interpreter or by external libraries
  (the builtin hash on strings and tuples, re.match, time.time, the
  datastore collection) are passed in as explicit parameters.
-/

namespace AlCore

/-- Values a Python configuration can take on the config-hash path of
configuration.py: integers, strings, lists, tuples and string-keyed
dictionaries. -/
inductive PyValue : Type where
  | int (n : Int)
  | str (s : String)
  | list (l : List PyValue)
  | tup (l : List PyValue)
  | dict (entries : List (String × PyValue))

/-- Normalized configuration values, the codomain of normalize_data:
dicts and sequences have both become tuples, scalars pass through. -/
inductive NValue : Type where
  | int (n : Int)
  | str (s : String)
  | tup (l : List NValue)

/-- Insert a key-value pair into a key-sorted list, keeping ascending key
order; used to model the iteration over sorted(data.keys()). -/
def insertPair (p : String × NValue) : List (String × NValue) → List (String × NValue)
  | [] => [p]
  | q :: rest => if p.1 < q.1 then p :: q :: rest else q :: insertPair p rest

/-- Insertion sort of (key, value) pairs by key, ascending, as Python's
sorted produces on the (unique) keys of a dict. -/
def sortPairs (l : List (String × NValue)) : List (String × NValue) :=
  l.foldr insertPair []

mutual
/-- Lean embedding of normalize_data (configuration.py lines 8-14): a dict
becomes the tuple, over its keys in sorted order, of (key, normalized
value) pairs; lists and tuples become tuples of normalized elements;
scalars pass through.  Sorting the entries by key after normalizing each
value is the same as iterating over sorted(data.keys()) and then
normalizing, because normalization does not touch the keys and the keys of
a Python dict are unique. -/
def normalize_data : PyValue → NValue
  | .int n => .int n
  | .str s => .str s
  | .list l => .tup (normalizeSeq l)
  | .tup l => .tup (normalizeSeq l)
  | .dict m => .tup ((sortPairs (normalizeEntries m)).map (fun p => .tup [.str p.1, p.2]))

/-- Pointwise normalize_data over the elements of a Python sequence. -/
def normalizeSeq : List PyValue → List NValue
  | [] => []
  | v :: vs => normalize_data v :: normalizeSeq vs

/-- Pointwise normalize_data over the values of a dict's entries. -/
def normalizeEntries : List (String × PyValue) → List (String × NValue)
  | [] => []
  | (k, v) :: rest => (k, normalize_data v) :: normalizeEntries rest
end

/-- CPython's hash modulus for numbers (sys.hash_info.modulus on 64-bit
builds): the Mersenne prime 2 ^ 61 - 1. -/
def pyHashModulus : Int := 2 ^ 61 - 1

/-- CPython's hash of an int: the value reduced modulo 2 ^ 61 - 1, with the
sign reapplied for negative inputs and the reserved error value -1 mapped
to -2.  Integer hashing is not randomized by CPython. -/
def pyHashInt (n : Int) : Int :=
  let h := if 0 ≤ n then n % pyHashModulus else -((-n) % pyHashModulus)
  if h = -1 then -2 else h

mutual
/-- CPython's builtin hash on normalized values.  String hashing is salted
per process (PYTHONHASHSEED), and the tuple combiner is an implementation
detail of the interpreter, so both are parameters: hstr is the process's
string hash and htup its combiner of the element hashes of a tuple. -/
def pyHash (hstr : String → Int) (htup : List Int → Int) : NValue → Int
  | .int n => pyHashInt n
  | .str s => hstr s
  | .tup l => htup (pyHashL hstr htup l)

/-- Elementwise pyHash over a tuple's components. -/
def pyHashL (hstr : String → Int) (htup : List Int → Int) : List NValue → List Int
  | [] => []
  | v :: vs => pyHash hstr htup v :: pyHashL hstr htup vs
end

/-- Lean embedding of config_hash (configuration.py lines 17-18):
str(hash(normalize_data(config))), with the interpreter's hash functions
for strings and tuples passed explicitly. -/
def config_hash (hstr : String → Int) (htup : List Int → Int) (config : PyValue) : String :=
  toString (pyHash hstr htup (normalize_data config))

/-- A registered service (configuration.py lines 26-33): name, category,
stage, accept and reject patterns (both defaulting to the empty string)
and a failure limit defaulting to 5. -/
structure Service where
  name : String
  category : String
  stage : String
  accepts : String := ""
  rejects : String := ""
  failure_limit : Int := 5
deriving DecidableEq

/-- Python dict lookup on an association list: the first entry with the
given key, if any. -/
def alookup {α : Type} : List (String × α) → String → Option α
  | [], _ => none
  | p :: rest, k => if p.1 = k then some p.2 else alookup rest k

/-- Python dict write d[k] = v on an association list: overwrite in place
when the key is present, append otherwise. -/
def dictInsert {α : Type} (m : List (String × α)) (k : String) (v : α) : List (String × α) :=
  if m.any (fun p => decide (p.1 = k)) then
    m.map (fun p => if p.1 = k then (k, v) else p)
  else
    m ++ [(k, v)]

/-- Lean embedding of Scheduler.services (configuration.py line 166): the
dict comprehension over the search results, keyed by service name with
dict insertion semantics (a later duplicate name overwrites the value). -/
def servicesDict (l : List Service) : List (String × Service) :=
  l.foldl (fun m s => dictInsert m s.name s) []

/-- Lean embedding of Scheduler.categories (configuration.py lines
146-153): fold over the registry dict's values, appending each service
name to the entry for its category, creating the entry on KeyError. -/
def categoriesOf (svcs : List (String × Service)) : List (String × List String) :=
  svcs.foldl
    (fun m p =>
      match alookup m p.2.category with
      | some l => m.map (fun q => if q.1 = p.2.category then (q.1, l ++ [p.2.name]) else q)
      | none => m ++ [(p.2.category, [p.2.name])])
    []

/-- The individual characters of a string, each as a one-character string:
what Python's set.update(name) adds to a set when name is a str (it
iterates over the string's characters). -/
def charStrings (s : String) : List String :=
  s.data.map (fun c => String.singleton c)

/-- Lean embedding of the while loop of Scheduler.expand_categories
(configuration.py lines 118-132), with explicit fuel since the source
loop need not terminate.  The work list is kept top-of-stack first, so
Python's services.pop() is the head and services.extend(members) pushes
the members reversed (they pop in reverse order of extension).  The seen
set receives the characters of the category name, exactly as
seen_categories.update(name) does on a str. -/
def expandLoop (cats : List (String × List String)) :
    Nat → List String → List String → List String → Option (List String)
  | _, [], found, _ => some found
  | 0, _ :: _, _, _ => none
  | fuel + 1, name :: rest, found, seen =>
    match alookup cats name with
    | some members =>
      if name ∈ seen then
        expandLoop cats fuel rest found seen
      else
        expandLoop cats fuel (members.reverse ++ rest) found (seen ++ charStrings name)
    | none => expandLoop cats fuel rest (found ++ [name]) seen

/-- Lean embedding of Scheduler.expand_categories (configuration.py lines
104-135): None maps to the empty list, otherwise the work-list loop runs
(popping from the end of the input list, hence the initial reversal) and
the accumulated service names are deduplicated by list(set(...)).  A
result of none means the source loop never terminates within the given
fuel. -/
def expand_categories (cats : List (String × List String)) (fuel : Nat)
    (services : Option (List String)) : Option (List String) :=
  match services with
  | none => some []
  | some svcs => (expandLoop cats fuel svcs.reverse [] []).map List.dedup

/-- The reserved system category name (configuration.py line 54). -/
def system_category : String := "system"

/-- Lean embedding of list.index as used by Scheduler.stage_index
(configuration.py lines 155-156): the position of the stage in the Stage
List, none when absent (Python raises ValueError). -/
def stage_index (stages : List String) (stage : String) : Option Nat :=
  match stages with
  | [] => none
  | y :: rest => if y = stage then some 0 else (stage_index rest stage).map (· + 1)

/-- The two submission fields build_schedule reads; None and the empty
list are distinct values (both are falsy in Python's truth test). -/
structure Submission where
  selected_categories : Option (List String)
  excluded_categories : Option (List String)

/-- The scheduler's view during one build_schedule call: the registry
snapshot returned by the datastore search, and the configured Stage List.
Modelled from the spec: Scheduler.stages is called by build_schedule and
stage_index but is absent from the sources; per the spec it returns the
fixed ordered sequence of stage names of the dispatch configuration
(DispatchConfig.stages). -/
structure SchedulerState where
  services : List Service
  stages : List String

/-- The write schedule[i][name] = service on the list of stage buckets. -/
def updateBucket : List (List (String × Service)) → Nat → String → Service →
    List (List (String × Service))
  | [], _, _, _ => []
  | b :: rest, 0, name, svc => dictInsert b name svc :: rest
  | b :: rest, i + 1, name, svc => b :: updateBucket rest i name svc

/-- Lean embedding of the candidate loop of Scheduler.build_schedule
(configuration.py lines 84-101): a candidate with no service definition is
logged and skipped; otherwise, when the accept pattern matches the file
type and the reject pattern is empty or does not match, the service is
written into the bucket of its stage.  A stage absent from the Stage List
makes stage_index raise, modelled by none. -/
def scheduleLoop (rm : String → String → Bool) (dict : List (String × Service))
    (stages : List String) (ft : String) :
    List String → List (List (String × Service)) → Option (List (List (String × Service)))
  | [], schedule => some schedule
  | name :: rest, schedule =>
    match alookup dict name with
    | none => scheduleLoop rm dict stages ft rest schedule
    | some service =>
      if rm service.accepts ft = true ∧ (service.rejects = "" ∨ rm service.rejects ft = false) then
        match stage_index stages service.stage with
        | none => none
        | some i => scheduleLoop rm dict stages ft rest (updateBucket schedule i name service)
      else
        scheduleLoop rm dict stages ft rest schedule

/-- The excluded set of build_schedule (configuration.py line 68). -/
def excludedNames (st : SchedulerState) (fuel : Nat) (sub : Submission) :
    Option (List String) :=
  expand_categories (categoriesOf (servicesDict st.services)) fuel sub.excluded_categories

/-- The selected list of build_schedule (configuration.py lines 69-72):
all registry names when selected_categories is falsy (None or empty),
otherwise the category expansion of the selection. -/
def selectedNames (st : SchedulerState) (fuel : Nat) (sub : Submission) :
    Option (List String) :=
  match sub.selected_categories with
  | none => some ((servicesDict st.services).map Prod.fst)
  | some l =>
    if l.isEmpty then some ((servicesDict st.services).map Prod.fst)
    else expand_categories (categoriesOf (servicesDict st.services)) fuel (some l)

/-- The names appended to the selected list on lines 75-77: every registry
key whose service's category is the system category. -/
def systemNames (st : SchedulerState) : List String :=
  ((servicesDict st.services).filter (fun p => decide (p.2.category = system_category))).map
    Prod.fst

/-- The candidate list list(set(selected) - set(excluded)) of line 81,
with the system services already appended to the selected list: the
deduplicated selected-plus-system names not in the excluded set. -/
def candidateNames (st : SchedulerState) (fuel : Nat) (sub : Submission) :
    Option (List String) :=
  match excludedNames st fuel sub, selectedNames st fuel sub with
  | some excluded, some selected =>
    some (((selected ++ systemNames st).filter (fun n => decide (n ∉ excluded))).dedup)
  | _, _ => none

/-- Lean embedding of Scheduler.build_schedule (configuration.py lines
64-102), parametric in the regex matcher rm standing for re.match.  The
schedule starts as one empty bucket per configured stage and the
candidate loop fills the buckets; none models an exception escaping the
call (an unknown stage, or the category expansion never returning). -/
def build_schedule (rm : String → String → Bool) (st : SchedulerState) (fuel : Nat)
    (sub : Submission) (file_type : String) : Option (List (List (String × Service))) :=
  match candidateNames st fuel sub with
  | none => none
  | some names =>
    scheduleLoop rm (servicesDict st.services) st.stages file_type names
      (st.stages.map (fun _ => []))

/-- Models Python re.match restricted to pattern strings without regex
metacharacters: re.match(p, s) succeeds iff p matches at the start of s,
which for a metacharacter-free p means p is a prefix of s; in particular
the empty pattern matches every input.  re.match is an external library
function and build_schedule is parametric in it; this concrete instance
evaluates schedules over literal patterns. -/
def reMatchLit (pattern input : String) : Bool :=
  pattern.data.isPrefixOf input.data

/-- Modelled from the spec: Result.build_key lives in the external
assemblyline package, not in this repository's sources; the spec says a
Result is keyed by (file hash, service name, version, config hash), so
the key is modelled as that tuple of four fields. -/
def resultBuildKey (service_name version file_hash conf_key : String) : List String :=
  [file_hash, service_name, version, conf_key]

/-- Lean embedding of Scheduler.build_result_key (configuration.py lines
137-144): the version passed to Result.build_key is hardcoded to the
string 0 (the source carries a TODO to fetch the real service version). -/
def build_result_key (file_hash service_name config_hash : String) : List String :=
  resultBuildKey service_name "0" file_hash config_hash

/-- The staleness window of CachedDocument (configuration.py line 37). -/
def REFRESH_SECONDS : Int := 5

/-- The mutable state of a CachedDocument (configuration.py lines 39-43):
the document key, the cached record (None initially) and the time of the
last fetch (0 initially). -/
structure CachedDocument (Doc : Type) where
  key : String
  cached : Option Doc
  update_time : Int

/-- A freshly constructed CachedDocument: no cached record, update time 0. -/
def CachedDocument.make {Doc : Type} (key : String) : CachedDocument Doc :=
  ⟨key, none, 0⟩

/-- Lean embedding of CachedDocument getattr interception (configuration.py
lines 45-49).  The collection is modelled as the time-indexed function
get (what collection.get(key) returns at a given instant), the two calls
to time.time() as now1 (compared against the staleness window, and the
instant of the fetch) and now2 (stored as the new update time), and the
attribute read as a function of the record.  Returns the attribute value
(none when the stale-path cache is still empty, where Python would raise
an AttributeError on None), the updated state, and whether the collection
was consulted. -/
def CachedDocument.getattrOn {Doc α : Type} (get : String → Int → Doc) (attr : Doc → α)
    (d : CachedDocument Doc) (now1 now2 : Int) :
    Option α × CachedDocument Doc × Bool :=
  if REFRESH_SECONDS < now1 - d.update_time then
    let doc := get d.key now1
    (some (attr doc), ⟨d.key, some doc, now2⟩, true)
  else
    (d.cached.map attr, d, false)

/-! Helper lemmas about the registry dictionaries. -/

theorem mem_dictInsert {α : Type} {m : List (String × α)} {k : String} {v : α}
    {p : String × α} (h : p ∈ dictInsert m k v) : p ∈ m ∨ p = (k, v) := by
  unfold dictInsert at h
  split at h
  · rcases List.mem_map.mp h with ⟨q, hq, hfq⟩
    by_cases hk : q.1 = k
    · right; rw [if_pos hk] at hfq; exact hfq.symm
    · left; rw [if_neg hk] at hfq; exact hfq ▸ hq
  · rcases List.mem_append.mp h with h | h
    · exact Or.inl h
    · right; simpa using h

theorem mem_foldl_dictInsert :
    ∀ (l : List Service) (acc : List (String × Service)),
      ∀ p ∈ l.foldl (fun m s => dictInsert m s.name s) acc,
        p ∈ acc ∨ (p.2 ∈ l ∧ p.1 = p.2.name) := by
  intro l
  induction l with
  | nil => intro acc p hp; exact Or.inl hp
  | cons s l ih =>
    intro acc p hp
    rcases ih (dictInsert acc s.name s) p hp with h | h
    · rcases mem_dictInsert h with h | h
      · exact Or.inl h
      · right; rw [h]; exact ⟨List.mem_cons_self _ _, rfl⟩
    · right; exact ⟨List.mem_cons_of_mem _ h.1, h.2⟩

theorem mem_servicesDict {l : List Service} {p : String × Service}
    (h : p ∈ servicesDict l) : p.2 ∈ l ∧ p.1 = p.2.name := by
  rcases mem_foldl_dictInsert l [] p h with h | h
  · cases h
  · exact h

theorem alookup_mem {α : Type} :
    ∀ {m : List (String × α)} {k : String} {v : α}, alookup m k = some v → (k, v) ∈ m := by
  intro m
  induction m with
  | nil => intro k v h; cases h
  | cons p rest ih =>
    intro k v h
    unfold alookup at h
    split at h
    · rename_i hk
      injection h with hv
      subst hk
      subst hv
      simp
    · exact List.mem_cons_of_mem _ (ih h)

theorem stage_index_isSome :
    ∀ {stages : List String} {s : String}, s ∈ stages → (stage_index stages s).isSome := by
  intro stages
  induction stages with
  | nil => intro s h; cases h
  | cons y rest ih =>
    intro s h
    unfold stage_index
    split
    · rfl
    · rename_i hy
      rcases List.mem_cons.mp h with h | h
      · exact absurd h.symm hy
      · have hrec := ih h
        cases ho : stage_index rest s with
        | none => rw [ho] at hrec; cases hrec
        | some i => simp [ho]

/-! Helper lemmas about bucket updates. -/

theorem updateBucket_length :
    ∀ (sch : List (List (String × Service))) (i : Nat) (n : String) (v : Service),
      (updateBucket sch i n v).length = sch.length := by
  intro sch
  induction sch with
  | nil => intro i n v; rfl
  | cons b rest ih =>
    intro i n v
    cases i with
    | zero => rfl
    | succ i => simpa [updateBucket] using ih i n v

theorem updateBucket_get?_eq :
    ∀ (sch : List (List (String × Service))) (i : Nat) (n : String) (v : Service)
      (b : List (String × Service)), sch.get? i = some b →
      (updateBucket sch i n v).get? i = some (dictInsert b n v) := by
  intro sch
  induction sch with
  | nil => intro i n v b h; cases h
  | cons b0 rest ih =>
    intro i n v b h
    cases i with
    | zero => cases h; rfl
    | succ i => exact ih i n v b h

theorem updateBucket_get?_ne :
    ∀ (sch : List (List (String × Service))) (i j : Nat) (n : String) (v : Service),
      j ≠ i → (updateBucket sch i n v).get? j = sch.get? j := by
  intro sch
  induction sch with
  | nil => intro i j n v _; rfl
  | cons b0 rest ih =>
    intro i j n v hji
    cases i with
    | zero =>
      cases j with
      | zero => exact absurd rfl hji
      | succ j => rfl
    | succ i =>
      cases j with
      | zero => rfl
      | succ j => exact ih i j n v (fun h => hji (by rw [h]))

/-- The placement condition build_schedule enforces for an entry of bucket
j: the name resolves in the registry to this service, the accept pattern
matches the file type, the reject pattern is empty or does not match, and
j is the index of the service's stage in the Stage List. -/
def Placed (rm : String → String → Bool) (dict : List (String × Service))
    (stages : List String) (ft name : String) (svc : Service) (j : Nat) : Prop :=
  alookup dict name = some svc ∧ rm svc.accepts ft = true ∧
    (svc.rejects = "" ∨ rm svc.rejects ft = false) ∧
    stage_index stages svc.stage = some j

theorem scheduleLoop_inv (rm : String → String → Bool) (dict : List (String × Service))
    (stages : List String) (ft : String) :
    ∀ (names : List String) (sch₀ sch : List (List (String × Service))),
      scheduleLoop rm dict stages ft names sch₀ = some sch →
      (∀ j b, sch₀.get? j = some b → ∀ p ∈ b, Placed rm dict stages ft p.1 p.2 j) →
      sch.length = sch₀.length ∧
        ∀ j b, sch.get? j = some b → ∀ p ∈ b, Placed rm dict stages ft p.1 p.2 j := by
  intro names
  induction names with
  | nil =>
    intro sch₀ sch h hinv
    unfold scheduleLoop at h
    cases h
    exact ⟨rfl, hinv⟩
  | cons name rest ih =>
    intro sch₀ sch h hinv
    cases halk : alookup dict name with
    | none =>
      simp only [scheduleLoop, halk] at h
      exact ih sch₀ sch h hinv
    | some svc =>
      simp only [scheduleLoop, halk] at h
      split at h
      · rename_i hcond
        cases hsi : stage_index stages svc.stage with
        | none =>
          simp only [hsi] at h
          exact Option.noConfusion h
        | some i =>
          simp only [hsi] at h
          have hinv' : ∀ j b, (updateBucket sch₀ i name svc).get? j = some b →
              ∀ p ∈ b, Placed rm dict stages ft p.1 p.2 j := by
            intro j b hb p hp
            by_cases hj : j = i
            · subst hj
              cases hb0 : sch₀.get? j with
              | none =>
                have hlen : sch₀.length ≤ j := List.get?_eq_none.mp hb0
                have hnone : (updateBucket sch₀ j name svc).get? j = none :=
                  List.get?_eq_none.mpr (by rw [updateBucket_length]; exact hlen)
                rw [hnone] at hb
                cases hb
              | some b0 =>
                rw [updateBucket_get?_eq sch₀ j name svc b0 hb0] at hb
                injection hb with hb
                subst hb
                rcases mem_dictInsert hp with hp | hp
                · exact hinv j b0 hb0 p hp
                · rw [hp]
                  exact ⟨halk, hcond.1, hcond.2, hsi⟩
            · rw [updateBucket_get?_ne sch₀ i j name svc hj] at hb
              exact hinv j b hb p hp
          have hmain := ih (updateBucket sch₀ i name svc) sch h hinv'
          exact ⟨hmain.1.trans (updateBucket_length sch₀ i name svc), hmain.2⟩
      · exact ih sch₀ sch h hinv

theorem build_schedule_placed (rm : String → String → Bool) (st : SchedulerState)
    (fuel : Nat) (sub : Submission) (ft : String) (sch : List (List (String × Service)))
    (h : build_schedule rm st fuel sub ft = some sch) :
    sch.length = st.stages.length ∧
      ∀ j b, sch.get? j = some b → ∀ p ∈ b,
        Placed rm (servicesDict st.services) st.stages ft p.1 p.2 j := by
  cases hc : candidateNames st fuel sub with
  | none =>
    simp only [build_schedule, hc] at h
    exact Option.noConfusion h
  | some names =>
    simp only [build_schedule, hc] at h
    have h0 : ∀ j b, (st.stages.map (fun _ => ([] : List (String × Service)))).get? j = some b →
        ∀ p ∈ b, Placed rm (servicesDict st.services) st.stages ft p.1 p.2 j := by
      intro j b hb p hp
      have hbmem := List.get?_mem hb
      rcases List.mem_map.mp hbmem with ⟨s, _, hbs⟩
      rw [← hbs] at hp
      cases hp
    have hmain := scheduleLoop_inv rm (servicesDict st.services) st.stages ft names _ sch h h0
    exact ⟨hmain.1.trans (List.length_map _ _), hmain.2⟩

theorem scheduleLoop_isSome (rm : String → String → Bool) (dict : List (String × Service))
    (stages : List String) (ft : String)
    (hstage : ∀ name svc, alookup dict name = some svc → (stage_index stages svc.stage).isSome) :
    ∀ (names : List String) (sch₀ : List (List (String × Service))),
      (scheduleLoop rm dict stages ft names sch₀).isSome := by
  intro names
  induction names with
  | nil => intro sch₀; simp [scheduleLoop]
  | cons name rest ih =>
    intro sch₀
    cases halk : alookup dict name with
    | none =>
      simp only [scheduleLoop, halk]
      exact ih sch₀
    | some svc =>
      simp only [scheduleLoop, halk]
      split
      · cases hsi : stage_index stages svc.stage with
        | none =>
          have hs := hstage name svc halk
          rw [hsi] at hs
          cases hs
        | some i =>
          simp only [hsi]
          exact ih _
      · exact ih sch₀

theorem expandLoop_found (cats : List (String × List String)) :
    ∀ (fuel : Nat) (stack found seen r : List String),
      expandLoop cats fuel stack found seen = some r →
      ∀ x ∈ r, x ∈ found ∨ alookup cats x = none := by
  intro fuel
  induction fuel with
  | zero =>
    intro stack found seen r h x hx
    cases stack with
    | nil =>
      simp only [expandLoop] at h
      injection h with h
      subst h
      exact Or.inl hx
    | cons a rest =>
      simp only [expandLoop] at h
      exact Option.noConfusion h
  | succ fuel ih =>
    intro stack found seen r h x hx
    cases stack with
    | nil =>
      simp only [expandLoop] at h
      injection h with h
      subst h
      exact Or.inl hx
    | cons name rest =>
      cases halk : alookup cats name with
      | some members =>
        simp only [expandLoop, halk] at h
        split at h
        · exact ih rest found seen r h x hx
        · exact ih _ found _ r h x hx
      | none =>
        simp only [expandLoop, halk] at h
        rcases ih rest (found ++ [name]) seen r h x hx with hm | hm
        · rcases List.mem_append.mp hm with hm | hm
          · exact Or.inl hm
          · rcases List.mem_singleton.mp hm with rfl
            exact Or.inr halk
        · exact Or.inr hm

theorem expandLoop_cyc (fuel : Nat) :
    ∀ found seen, "AA" ∉ seen → "BB" ∉ seen →
      expandLoop [("AA", ["BB"]), ("BB", ["AA"])] fuel ["AA"] found seen = none ∧
      expandLoop [("AA", ["BB"]), ("BB", ["AA"])] fuel ["BB"] found seen = none := by
  induction fuel with
  | zero => intro found seen _ _; exact ⟨rfl, rfl⟩
  | succ fuel ih =>
    intro found seen hA hB
    have hlkA : alookup [("AA", ["BB"]), ("BB", ["AA"])] "AA" = some ["BB"] := by decide
    have hlkB : alookup [("AA", ["BB"]), ("BB", ["AA"])] "BB" = some ["AA"] := by decide
    have hchA : charStrings "AA" = ["A", "A"] := by decide
    have hchB : charStrings "BB" = ["B", "B"] := by decide
    constructor
    · simp only [expandLoop, hlkA, if_neg hA, hchA]
      have hA' : "AA" ∉ seen ++ ["A", "A"] := by
        intro hmem
        rcases List.mem_append.mp hmem with hm | hm
        · exact hA hm
        · simp at hm
      have hB' : "BB" ∉ seen ++ ["A", "A"] := by
        intro hmem
        rcases List.mem_append.mp hmem with hm | hm
        · exact hB hm
        · simp at hm
      simpa using (ih found (seen ++ ["A", "A"]) hA' hB').2
    · simp only [expandLoop, hlkB, if_neg hB, hchB]
      have hA' : "AA" ∉ seen ++ ["B", "B"] := by
        intro hmem
        rcases List.mem_append.mp hmem with hm | hm
        · exact hA hm
        · simp at hm
      have hB' : "BB" ∉ seen ++ ["B", "B"] := by
        intro hmem
        rcases List.mem_append.mp hmem with hm | hm
        · exact hB hm
        · simp at hm
      simpa using (ih found (seen ++ ["B", "B"]) hA' hB').1

/-! Claim theorems. -/

/-- C1: the claim says every service of the reserved system category
appears in the schedule even when its name or its category is excluded.
On the code this fails: build_schedule appends the system services to the
selected list before subtracting the excluded set (configuration.py lines
74-81), so excluding a system service by name or by the system category
removes it, contradicting the source's own comment that system services
cannot be excluded.  With the single system service sysguard (stage pre,
accept pattern t) and file type txt, excluding it by name or by category
yields an empty schedule, while with no exclusion it is scheduled. -/
theorem build_schedule_system_service_excludable :
    build_schedule reMatchLit ⟨[⟨"sysguard", "system", "pre", "t", "", 5⟩], ["pre"]⟩ 50
        ⟨none, some ["sysguard"]⟩ "txt" = some [[]] ∧
    build_schedule reMatchLit ⟨[⟨"sysguard", "system", "pre", "t", "", 5⟩], ["pre"]⟩ 50
        ⟨none, some ["system"]⟩ "txt" = some [[]] ∧
    build_schedule reMatchLit ⟨[⟨"sysguard", "system", "pre", "t", "", 5⟩], ["pre"]⟩ 50
        ⟨none, none⟩ "txt" =
      some [[("sysguard", ⟨"sysguard", "system", "pre", "t", "", 5⟩)]] ∧
    (⟨"sysguard", "system", "pre", "t", "", 5⟩ : Service).category = system_category := by
  refine ⟨by decide, by decide, by decide, rfl⟩

/-- C2: the claim says expand_categories terminates for every finite
categories mapping, cyclic ones included, because each category is
expanded at most once.  On the code this fails: seen_categories.update(name)
adds the individual characters of the category name, not the name, so a
multi-character category name is never recognized as seen and the loop
re-expands the cycle AA -> BB -> AA forever: for every fuel bound the
embedded loop is still running. -/
theorem expand_categories_cyclic_diverges (fuel : Nat) :
    expand_categories [("AA", ["BB"]), ("BB", ["AA"])] fuel (some ["AA"]) = none := by
  have h := (expandLoop_cyc fuel [] [] (by simp) (by simp)).1
  simp only [expand_categories]
  rw [show (["AA"] : List String).reverse = ["AA"] from rfl, h]
  rfl

/-- C3: the claim says config_hash is deterministic across process
restarts.  The code computes str(hash(normalize_data(config))) with the
builtin hash, whose value on strings is salted per process
(PYTHONHASHSEED): the embedded config_hash is literally the rendered
interpreter string hash of a string config, and two interpreter hash
functions that differ on that string give different config hashes. -/
theorem config_hash_depends_on_interpreter_hash :
    (∀ hstr htup, config_hash hstr htup (.str "x") = toString (hstr "x")) ∧
    config_hash (fun _ => 0) (fun _ => 0) (.str "x") ≠
      config_hash (fun _ => 1) (fun _ => 0) (.str "x") :=
  ⟨fun _ _ => rfl, by decide⟩

/-- C7 counterexample: the only-if direction of the claimed equivalence
fails on the code: CPython hashes integers modulo 2 ^ 61 - 1, so the
structurally different configurations 0 and 2 ^ 61 - 1 hash to the same
string for every interpreter hash function, while their normalized forms
differ. -/
theorem config_hash_integer_collision :
    config_hash (fun _ => 0) (fun _ => 0) (.int 0) =
      config_hash (fun _ => 0) (fun _ => 0) (.int (2 ^ 61 - 1)) ∧
    normalize_data (.int 0) ≠ normalize_data (.int (2 ^ 61 - 1)) := by
  constructor
  · decide
  · intro hcontra
    have h0 : normalize_data (.int 0) = NValue.int 0 := rfl
    have h1 : normalize_data (.int (2 ^ 61 - 1)) = NValue.int (2 ^ 61 - 1) := rfl
    rw [h0, h1] at hcontra
    injection hcontra with hn
    norm_num at hn

/-- C7 amended: within one process (a fixed pair of interpreter hash
functions), equal normalized forms give equal config hashes, and key
insertion order never affects the hash; the converse direction of the
claim fails by config_hash_integer_collision. -/
theorem config_hash_eq_of_normalize_eq :
    (∀ hstr htup c1 c2, normalize_data c1 = normalize_data c2 →
      config_hash hstr htup c1 = config_hash hstr htup c2) ∧
    (∀ hstr htup,
      config_hash hstr htup (.dict [("a", .int 1), ("b", .int 2)]) =
        config_hash hstr htup (.dict [("b", .int 2), ("a", .int 1)])) := by
  have hbase : ∀ (hstr : String → Int) (htup : List Int → Int) c1 c2,
      normalize_data c1 = normalize_data c2 →
        config_hash hstr htup c1 = config_hash hstr htup c2 := by
    intro hstr htup c1 c2 h
    unfold config_hash
    rw [h]
  refine ⟨hbase, fun hstr htup => hbase hstr htup _ _ ?_⟩
  with_unfolding_all rfl

/-- Witness for C7's amended theorem: a list and a tuple with the same
elements normalize identically, hence hash identically. -/
theorem config_hash_eq_of_normalize_eq_witness :
    config_hash (fun _ => 0) (fun _ => 0) (.list [.int 3]) =
      config_hash (fun _ => 0) (fun _ => 0) (.tup [.int 3]) :=
  config_hash_eq_of_normalize_eq.1 _ _ _ _ rfl

/-- C8: the claim says the Result cache key is built from (file hash,
service name, service version, config hash) so that different versions of
a service get distinct keys.  On the code this fails: build_result_key
hardcodes version to the string 0 (with a TODO to fetch the real
version), so the key it builds equals the versioned key exactly when the
version is that constant; the actual service version cannot influence the
key at all. -/
theorem build_result_key_version_hardcoded (fh sn ch v : String) :
    build_result_key fh sn ch = resultBuildKey sn v fh ch ↔ v = "0" := by
  unfold build_result_key resultBuildKey
  constructor
  · intro h
    injection h with _ h
    injection h with _ h
    injection h with h _
    exact h.symm
  · intro h
    rw [h]

/-- Witness for C8's theorem at concrete strings. -/
theorem build_result_key_version_hardcoded_witness :
    build_result_key "f" "s" "c" = resultBuildKey "s" "0" "f" "c" :=
  (build_result_key_version_hardcoded "f" "s" "c" "0").mpr rfl

/-- C9: a selector that is a key of the categories mapping is never itself
part of the result of expand_categories: whenever the expansion loop
returns, every returned name fails to resolve as a category, so a name
shared by a category and a service is consumed as the category. -/
theorem expand_categories_never_returns_category_names
    (cats : List (String × List String)) (fuel : Nat) (sel r : List String)
    (name : String) (members : List String)
    (h : expand_categories cats fuel (some sel) = some r)
    (hcat : alookup cats name = some members) : name ∉ r := by
  intro hmem
  simp only [expand_categories] at h
  cases hloop : expandLoop cats fuel sel.reverse [] [] with
  | none =>
    rw [hloop] at h
    exact Option.noConfusion h
  | some found =>
    rw [hloop, Option.map_some'] at h
    injection h with h
    subst h
    have hfound := expandLoop_found cats fuel sel.reverse [] [] found hloop name
      (List.mem_dedup.mp hmem)
    rcases hfound with hf | hf
    · cases hf
    · rw [hcat] at hf
      exact Option.noConfusion hf

/-- Witness for C9's theorem: expanding the category cat with single
member a yields exactly a, and cat itself is not in the result. -/
theorem expand_categories_never_returns_category_names_witness :
    expand_categories [("cat", ["a"])] 5 (some ["cat"]) = some ["a"] ∧
      "cat" ∉ (["a"] : List String) :=
  ⟨by decide, expand_categories_never_returns_category_names [("cat", ["a"])] 5 ["cat"]
    ["a"] "cat" ["a"] (by decide) (by decide)⟩

/-- C4: a returned schedule has exactly one bucket per configured stage,
every entry of bucket j is the registry service of its name, placed in
the bucket indexed by its configured stage, with its accept pattern
matching and its reject pattern (when configured, i.e. non-empty) not
matching the file type; and a service name appears in at most one bucket,
with a unique service value. -/
theorem build_schedule_bucket_partition (rm : String → String → Bool) (st : SchedulerState)
    (fuel : Nat) (sub : Submission) (ft : String) (sch : List (List (String × Service)))
    (h : build_schedule rm st fuel sub ft = some sch) :
    sch.length = st.stages.length ∧
      (∀ j b name svc, sch.get? j = some b → (name, svc) ∈ b →
        alookup (servicesDict st.services) name = some svc ∧
          stage_index st.stages svc.stage = some j ∧
          rm svc.accepts ft = true ∧ (svc.rejects = "" ∨ rm svc.rejects ft = false)) ∧
      (∀ j j' b b' name svc svc', sch.get? j = some b → sch.get? j' = some b' →
        (name, svc) ∈ b → (name, svc') ∈ b' → j = j' ∧ svc = svc') := by
  obtain ⟨hlen, hplaced⟩ := build_schedule_placed rm st fuel sub ft sch h
  refine ⟨hlen, ?_, ?_⟩
  · intro j b name svc hb hmem
    have hp := hplaced j b hb (name, svc) hmem
    unfold Placed at hp
    exact ⟨hp.1, hp.2.2.2, hp.2.1, hp.2.2.1⟩
  · intro j j' b b' name svc svc' hb hb' hmem hmem'
    have hp := hplaced j b hb (name, svc) hmem
    have hp' := hplaced j' b' hb' (name, svc') hmem'
    unfold Placed at hp hp'
    have hsvc : svc = svc' := by
      have hlk := hp.1.symm.trans hp'.1
      injection hlk
    subst hsvc
    have hj : some j = some j' := hp.2.2.2.symm.trans hp'.2.2.2
    injection hj with hj
    exact ⟨hj, rfl⟩

/-- Witness for C4's theorem: two services on stages pre and post, the
second rejected for file type txt; the schedule has one bucket per stage
and the theorem yields the length fact at this input. -/
theorem build_schedule_bucket_partition_witness :
    build_schedule reMatchLit ⟨[⟨"A", "static", "pre", "t", "", 5⟩,
        ⟨"B", "static", "post", "t", "tx", 5⟩], ["pre", "post"]⟩ 50 ⟨none, none⟩ "txt" =
      some [[("A", ⟨"A", "static", "pre", "t", "", 5⟩)], []] ∧
    ([[("A", ⟨"A", "static", "pre", "t", "", 5⟩)], []] :
        List (List (String × Service))).length = 2 :=
  ⟨by decide,
    (build_schedule_bucket_partition reMatchLit
      ⟨[⟨"A", "static", "pre", "t", "", 5⟩, ⟨"B", "static", "post", "t", "tx", 5⟩],
        ["pre", "post"]⟩ 50 ⟨none, none⟩ "txt"
      [[("A", ⟨"A", "static", "pre", "t", "", 5⟩)], []] (by decide)).1⟩

/-- C5 counterexample: the claim says a service is placed only when the
file type full-matches its accept pattern, and that an empty or unset
accept pattern matches nothing.  On the code re.match anchors only at the
start: the empty default pattern matches every file type, so a service
with unset accepts is scheduled for the non-empty file type text, and a
service accepting text is scheduled for the longer file type textual,
which a full match would refuse. -/
theorem build_schedule_counter_accept_semantics :
    build_schedule reMatchLit ⟨[⟨"s", "static", "pre", "", "", 5⟩], ["pre"]⟩ 50 ⟨none, none⟩
        "text" = some [[("s", ⟨"s", "static", "pre", "", "", 5⟩)]] ∧
    (⟨"s", "static", "pre", "", "", 5⟩ : Service).accepts = "" ∧
    ("text" : String) ≠ "" ∧
    build_schedule reMatchLit ⟨[⟨"p", "static", "pre", "text", "", 5⟩], ["pre"]⟩ 50
        ⟨none, none⟩ "textual" = some [[("p", ⟨"p", "static", "pre", "text", "", 5⟩)]] ∧
    ("textual" : String) ≠ "text" := by
  refine ⟨by decide, rfl, by decide, by decide, by decide⟩

/-- C5 amended: build_schedule places a service in a bucket only when its
accept pattern matches at the start of the file type (Python re.match
prefix semantics, here over metacharacter-free patterns); the empty or
unset accept pattern matches every file type, so such services are placed
whenever not rejected. -/
theorem build_schedule_accept_prefix (st : SchedulerState) (fuel : Nat) (sub : Submission)
    (ft : String) (sch : List (List (String × Service))) (j : Nat)
    (b : List (String × Service)) (name : String) (svc : Service)
    (h : build_schedule reMatchLit st fuel sub ft = some sch)
    (hb : sch.get? j = some b) (hmem : (name, svc) ∈ b) :
    reMatchLit svc.accepts ft = true ∧ reMatchLit "" ft = true := by
  have hp := (build_schedule_placed reMatchLit st fuel sub ft sch h).2 j b hb (name, svc) hmem
  unfold Placed at hp
  refine ⟨hp.2.1, ?_⟩
  unfold reMatchLit
  rw [show ("" : String).data = [] from rfl]
  simp

/-- Witness for C5's amended theorem: the placed service accepting text is
a prefix match for textual, and the empty pattern matches textual. -/
theorem build_schedule_accept_prefix_witness :
    reMatchLit "text" "textual" = true ∧ reMatchLit "" "textual" = true :=
  build_schedule_accept_prefix ⟨[⟨"p", "static", "pre", "text", "", 5⟩], ["pre"]⟩ 50
    ⟨none, none⟩ "textual" [[("p", ⟨"p", "static", "pre", "text", "", 5⟩)]] 0
    [("p", ⟨"p", "static", "pre", "text", "", 5⟩)] "p" ⟨"p", "static", "pre", "text", "", 5⟩
    (by decide) (by decide) (by decide)

/-- C6 counterexample: the claim says a candidate whose configured stage
is absent from the Stage List is handled without failing schedule
construction at schedule time.  On the code stage_index calls
list.index, which raises ValueError inside build_schedule: with a single
accepted service on the unknown stage weird, build_schedule fails. -/
theorem build_schedule_counter_unknown_stage :
    build_schedule reMatchLit ⟨[⟨"b", "static", "weird", "t", "", 5⟩], ["pre"]⟩ 50
      ⟨none, none⟩ "txt" = none := by decide

/-- C6 amended: a candidate name with no service definition is skipped
without affecting the loop (it is only logged), and build_schedule
returns a schedule whenever the category expansions return and every
registry service's configured stage is in the Stage List; a service on an
unknown stage instead makes build_schedule raise at schedule time (see
the counterexample). -/
theorem build_schedule_config_error_handling :
    (∀ (rm : String → String → Bool) dict stages ft name rest sch₀,
      alookup dict name = none →
        scheduleLoop rm dict stages ft (name :: rest) sch₀ =
          scheduleLoop rm dict stages ft rest sch₀) ∧
    (∀ (rm : String → String → Bool) (st : SchedulerState) fuel sub ft,
      (∀ s ∈ st.services, s.stage ∈ st.stages) →
        (candidateNames st fuel sub).isSome →
          (build_schedule rm st fuel sub ft).isSome) := by
  constructor
  · intro rm dict stages ft name rest sch₀ h
    simp only [scheduleLoop, h]
  · intro rm st fuel sub ft hstages hcand
    cases hc : candidateNames st fuel sub with
    | none => rw [hc] at hcand; cases hcand
    | some names =>
      simp only [build_schedule, hc]
      apply scheduleLoop_isSome
      intro name svc halk
      have hmem := mem_servicesDict (alookup_mem halk)
      exact stage_index_isSome (hstages svc hmem.1)

/-- Witness for C6's amended theorem: the unknown candidate ghost is
skipped by the loop, and the schedule for a selection naming ghost still
succeeds when the one real service's stage is configured. -/
theorem build_schedule_config_error_handling_witness :
    scheduleLoop reMatchLit [("a", ⟨"a", "static", "pre", "t", "", 5⟩)] ["pre"] "txt"
        ["ghost", "a"] [[]] =
      scheduleLoop reMatchLit [("a", ⟨"a", "static", "pre", "t", "", 5⟩)] ["pre"] "txt"
        ["a"] [[]] ∧
    (build_schedule reMatchLit ⟨[⟨"a", "static", "pre", "t", "", 5⟩], ["pre"]⟩ 50
        ⟨some ["ghost", "a"], none⟩ "txt").isSome = true :=
  ⟨build_schedule_config_error_handling.1 reMatchLit _ _ _ "ghost" _ _ (by decide),
    build_schedule_config_error_handling.2 reMatchLit _ 50 _ "txt" (by decide) (by decide)⟩

/-- C10: an attribute read through the getattr interception consults the
collection exactly when more than REFRESH_SECONDS have elapsed since the
last recorded fetch; the very first read (update time 0) fetches whenever
the clock exceeds REFRESH_SECONDS, a fetching read returns the attribute
of the snapshot just fetched and stores it with the fetch time, and a
read within the freshness window returns the attribute of the cached
record unchanged without touching the collection. -/
theorem cachedDocument_getattr_spec {Doc α : Type} (get : String → Int → Doc)
    (attr : Doc → α) (d : CachedDocument Doc) (k : String) (now1 now2 : Int) :
    ((CachedDocument.getattrOn get attr d now1 now2).2.2 = true ↔
      REFRESH_SECONDS < now1 - d.update_time) ∧
    (REFRESH_SECONDS < now1 →
      (CachedDocument.getattrOn get attr (CachedDocument.make k) now1 now2).2.2 = true) ∧
    (REFRESH_SECONDS < now1 - d.update_time →
      CachedDocument.getattrOn get attr d now1 now2 =
        (some (attr (get d.key now1)), ⟨d.key, some (get d.key now1), now2⟩, true)) ∧
    (¬ REFRESH_SECONDS < now1 - d.update_time →
      CachedDocument.getattrOn get attr d now1 now2 = (d.cached.map attr, d, false)) := by
  refine ⟨?_, ?_, ?_, ?_⟩
  · unfold CachedDocument.getattrOn
    split
    · rename_i hlt; simp [hlt]
    · rename_i hlt; simp [hlt]
  · intro h
    unfold CachedDocument.getattrOn CachedDocument.make
    rw [if_pos (by simpa using h)]
  · intro h
    unfold CachedDocument.getattrOn
    rw [if_pos h]
  · intro h
    unfold CachedDocument.getattrOn
    rw [if_neg h]

/-- Witness for C10's theorem: a first read at time 10 on a fresh cached
document fetches from the collection. -/
theorem cachedDocument_getattr_spec_witness :
    (CachedDocument.getattrOn (fun _ t => t) (fun n => n + 1)
      (CachedDocument.make "k") 10 11).2.2 = true :=
  (cachedDocument_getattr_spec (fun _ t => t) (fun n => n + 1)
    (CachedDocument.make "k") "k" 10 11).2.1 (by decide)

end AlCore
